import Mathlib

/-!
# Verification of the news sentiment analyzer core

Shallow embedding of `news_sentiment_analyzer.py`:
lexicon-based sentiment scoring, label derivation, per-source
aggregation and summary/chart data production.

Text is modelled as `List Char`.  Python's `str.lower()` is modelled on
the ASCII range by `lowerChar`; Python's `str.split()` whitespace class
is modelled by `isWs` (space, tab, newline, carriage return, vertical
tab, form feed).
-/

namespace NewsSentiment

/-- ASCII whitespace, as recognised by Python's `str.split()`. -/
def isWs (c : Char) : Bool :=
  c = ' ' || c = '\t' || c = '\n' || c = '\r' || c = '\x0b' || c = '\x0c'

/-- ASCII case folding of one character, as done by Python's `str.lower()`
on the characters relevant here. -/
def lowerChar (c : Char) : Char :=
  if c = 'A' then 'a' else if c = 'B' then 'b' else if c = 'C' then 'c'
  else if c = 'D' then 'd' else if c = 'E' then 'e' else if c = 'F' then 'f'
  else if c = 'G' then 'g' else if c = 'H' then 'h' else if c = 'I' then 'i'
  else if c = 'J' then 'j' else if c = 'K' then 'k' else if c = 'L' then 'l'
  else if c = 'M' then 'm' else if c = 'N' then 'n' else if c = 'O' then 'o'
  else if c = 'P' then 'p' else if c = 'Q' then 'q' else if c = 'R' then 'r'
  else if c = 'S' then 's' else if c = 'T' then 't' else if c = 'U' then 'u'
  else if c = 'V' then 'v' else if c = 'W' then 'w' else if c = 'X' then 'x'
  else if c = 'Y' then 'y' else if c = 'Z' then 'z' else c

/-- ASCII upper-casing of one character, as done by Python's `str.upper()`
on the characters relevant here. -/
def upperChar (c : Char) : Char :=
  if c = 'a' then 'A' else if c = 'b' then 'B' else if c = 'c' then 'C'
  else if c = 'd' then 'D' else if c = 'e' then 'E' else if c = 'f' then 'F'
  else if c = 'g' then 'G' else if c = 'h' then 'H' else if c = 'i' then 'I'
  else if c = 'j' then 'J' else if c = 'k' then 'K' else if c = 'l' then 'L'
  else if c = 'm' then 'M' else if c = 'n' then 'N' else if c = 'o' then 'O'
  else if c = 'p' then 'P' else if c = 'q' then 'Q' else if c = 'r' then 'R'
  else if c = 's' then 'S' else if c = 't' then 'T' else if c = 'u' then 'U'
  else if c = 'v' then 'V' else if c = 'w' then 'W' else if c = 'x' then 'X'
  else if c = 'y' then 'Y' else if c = 'z' then 'Z' else c

/-- `text.lower()` on a character list. -/
def lowerStr (t : List Char) : List Char := t.map lowerChar

/-- The upper-case ASCII letters, the inputs `lowerChar` changes. -/
def upperLetters : List Char :=
  ['A', 'B', 'C', 'D', 'E', 'F', 'G', 'H', 'I', 'J', 'K', 'L', 'M',
   'N', 'O', 'P', 'Q', 'R', 'S', 'T', 'U', 'V', 'W', 'X', 'Y', 'Z']

/-- The lower-case ASCII letters, the inputs `upperChar` changes. -/
def lowerLetters : List Char :=
  ['a', 'b', 'c', 'd', 'e', 'f', 'g', 'h', 'i', 'j', 'k', 'l', 'm',
   'n', 'o', 'p', 'q', 'r', 's', 't', 'u', 'v', 'w', 'x', 'y', 'z']

/-- The positive lexicon `POSITIVE_TERMS` from the source, in order. -/
def POSITIVE_TERMS : List (List Char) :=
  ["success".data, "growth".data, "improve".data, "recovery".data, "record".data,
   "gain".data, "boost".data, "strong".data, "optimistic".data, "progress".data,
   "win".data, "peace".data, "stability".data, "support".data, "benefit".data,
   "hope".data, "upgrade".data, "rise".data]

/-- The negative lexicon `NEGATIVE_TERMS` from the source, in order. -/
def NEGATIVE_TERMS : List (List Char) :=
  ["crisis".data, "war".data, "conflict".data, "inflation".data, "recession".data,
   "loss".data, "drop".data, "decline".data, "strike".data, "attack".data,
   "risk".data, "fear".data, "collapse".data, "tension".data, "violence".data,
   "negative".data, "downturn".data, "cuts".data]

/-- `score_sentiment` from the source: lower-case the text, add 1 for each
positive term occurring as a substring, subtract 1 for each negative term
occurring as a substring. -/
def score_sentiment (text : List Char) : Int :=
  NEGATIVE_TERMS.foldl (fun s w => if w <:+: lowerStr text then s - 1 else s)
    (POSITIVE_TERMS.foldl (fun s w => if w <:+: lowerStr text then s + 1 else s) 0)

/-- `sentiment_label` from the source. -/
def sentiment_label (score : Int) : String :=
  if score > 0 then "Positive"
  else if score < 0 then "Negative"
  else "Neutral"

/-- The maximal whitespace-free runs of a character list: the model of
Python's `text.split()` (split on whitespace runs, dropping empties). -/
def pySplit : List Char → List (List Char)
  | [] => []
  | [c] => if isWs c then [] else [[c]]
  | c :: d :: t =>
    if isWs c then pySplit (d :: t)
    else if isWs d then [c] :: pySplit (d :: t)
    else
      match pySplit (d :: t) with
      | [] => [[c]]
      | r :: rs => (c :: r) :: rs

/-- `" ".join` on a list of character lists. -/
def joinSp : List (List Char) → List Char
  | [] => []
  | [r] => r
  | r :: s :: rs => r ++ ' ' :: joinSp (s :: rs)

/-- `clean_headline` from the source: `" ".join(text.split())`. -/
def clean_headline (text : List Char) : List Char :=
  joinSp (pySplit text)

/-- `analyse_single_headline` from the source: clean, score the cleaned
text, derive the label. -/
def analyse_single_headline (text : List Char) : String × Int :=
  (sentiment_label (score_sentiment (clean_headline text)),
   score_sentiment (clean_headline text))

/-- A `Counter` keyed by label strings, modelled as an association list in
first-insertion order. -/
def incr (m : List (String × Nat)) (k : String) : List (String × Nat) :=
  match m with
  | [] => [(k, 1)]
  | (k', v) :: rest => if k' = k then (k', v + 1) :: rest else (k', v) :: incr rest k

/-- `dist.get(label, 0)`: look a key up in the counter, defaulting to 0. -/
def getOr0 (m : List (String × Nat)) (k : String) : Nat :=
  match m with
  | [] => 0
  | (k', v) :: rest => if k' = k then v else getOr0 rest k

/-- `sum(distribution.values())`. -/
def sumValues (m : List (String × Nat)) : Nat :=
  (m.map Prod.snd).sum

/-- The per-source report built by `analyse_source`. -/
structure SourceReport where
  source : String
  total : Nat
  distribution : List (String × Nat)
  details : List (String × List Char)
deriving Repr, DecidableEq

/-- `analyse_source` from the source: classify each headline in order,
counting labels and collecting `(label, headline)` detail pairs. -/
def analyse_source (name : String) (headlines : List (List Char)) : SourceReport :=
  { source := name
    total := headlines.length
    distribution :=
      (headlines.foldl
        (fun (acc : List (String × Nat) × List (String × List Char)) headline =>
          (incr acc.1 (analyse_single_headline headline).1,
           acc.2 ++ [((analyse_single_headline headline).1, headline)]))
        ([], [])).1
    details :=
      (headlines.foldl
        (fun (acc : List (String × Nat) × List (String × List Char)) headline =>
          (incr acc.1 (analyse_single_headline headline).1,
           acc.2 ++ [((analyse_single_headline headline).1, headline)]))
        ([], [])).2 }

/-- The `(sourceName, positiveCount, neutralCount, negativeCount)` tuple read
off one report by both `print_summary` and `plot_sentiment_chart`. -/
def reportTuple (r : SourceReport) : String × Nat × Nat × Nat :=
  (r.source,
   getOr0 r.distribution "Positive",
   getOr0 r.distribution "Neutral",
   getOr0 r.distribution "Negative")

/-- The ordered sequence of per-source tuples emitted by the
`print_summary` loop (`for result in results`, reading each count with
`dist.get(label, 0)`). -/
def summary_tuples (results : List SourceReport) : List (String × Nat × Nat × Nat) :=
  results.foldl (fun acc r => acc ++ [reportTuple r]) []

/-- The four parallel lists built by the loop in `plot_sentiment_chart`
(`sources`, `positives`, `neutrals`, `negatives`, each appended to in
report order). -/
def plot_data (results : List SourceReport) :
    List String × List Nat × List Nat × List Nat :=
  results.foldl
    (fun acc r =>
      (acc.1 ++ [r.source],
       acc.2.1 ++ [getOr0 r.distribution "Positive"],
       acc.2.2.1 ++ [getOr0 r.distribution "Neutral"],
       acc.2.2.2 ++ [getOr0 r.distribution "Negative"]))
    ([], [], [], [])

/-- `plot_sentiment_chart` from the source: returns without rendering when
`results` is empty, otherwise renders the chart data. -/
def plot_sentiment_chart (results : List SourceReport) :
    Option (List String × List Nat × List Nat × List Nat) :=
  if results.isEmpty then none else some (plot_data results)

/-- The observable outcome of one run of `main`. -/
inductive RunResult where
  | noData
  | analysed (summary : List (String × Nat × Nat × Nat))
      (chart : Option (List String × List Nat × List Nat × List Nat))
deriving Repr, DecidableEq

/-- `main` from the source, with the two fetches abstracted as `Option`
arguments (`none` = the fetch raised, so the source is skipped): build the
report list, then either summarize and chart it, or signal no data. -/
def main_model (bbc guardian : Option (List (List Char))) : RunResult :=
  let results :=
    (match bbc with
     | some hs => [analyse_source "BBC News" hs]
     | none => []) ++
    (match guardian with
     | some hs => [analyse_source "The Guardian UK" hs]
     | none => [])
  if results.isEmpty then RunResult.noData
  else RunResult.analysed (summary_tuples results) (plot_sentiment_chart results)

/-! ## General lemmas about substring occurrence and separators -/

section Splitting

variable {α : Type*} {c : α} {p A B X : List α}

theorem prefix_append_cons_iff (hc : c ∉ p) : p <+: A ++ c :: B ↔ p <+: A := by
  constructor
  · intro h
    rcases le_or_lt p.length A.length with hle | hlt
    · exact List.prefix_of_prefix_length_le h (A.prefix_append (c :: B)) hle
    · exfalso
      have h2 : A ++ [c] <+: A ++ c :: B := by
        refine ⟨B, ?_⟩
        simp
      have h3 : A ++ [c] <+: p :=
        List.prefix_of_prefix_length_le h2 h (by simpa using hlt)
      exact hc (h3.sublist.subset (by simp))
  · intro h
    exact h.trans (A.prefix_append (c :: B))

theorem infix_cons_of_not_mem (hc : c ∉ p) : p <:+: c :: B ↔ p <:+: B := by
  rw [List.infix_cons_iff]
  constructor
  · rintro (hpre | hin)
    · have : p <+: [] := (prefix_append_cons_iff (A := []) hc).mp (by simpa using hpre)
      simp [List.prefix_nil.mp this]
    · exact hin
  · exact Or.inr

theorem infix_append_cons_iff (hc : c ∉ p) :
    p <:+: A ++ c :: B ↔ p <:+: A ∨ p <:+: B := by
  induction A with
  | nil =>
    simp only [List.nil_append]
    rw [infix_cons_of_not_mem hc]
    constructor
    · exact Or.inr
    · rintro (h | h)
      · simp [List.eq_nil_of_infix_nil h]
      · exact h
  | cons a A ih =>
    have hpre : p <+: a :: (A ++ c :: B) ↔ p <+: a :: A := by
      simpa using prefix_append_cons_iff (A := a :: A) hc
    rw [List.cons_append, List.infix_cons_iff, ih, hpre, List.infix_cons_iff]
    tauto

theorem prefix_takeWhile_iff {q : α → Bool} (hp : ∀ a ∈ p, q a) :
    p <+: X ↔ p <+: X.takeWhile q := by
  induction X generalizing p with
  | nil => simp
  | cons x X ih =>
    cases p with
    | nil => simp
    | cons a p' =>
      by_cases hq : q x
      · rw [List.takeWhile_cons_of_pos hq, List.cons_prefix_cons, List.cons_prefix_cons]
        exact and_congr_right fun _ => ih fun a ha => hp a (List.mem_cons_of_mem _ ha)
      · rw [List.takeWhile_cons_of_neg hq]
        constructor
        · intro h
          rw [List.cons_prefix_cons] at h
          obtain ⟨rfl, -⟩ := h
          exact absurd (hp a (by simp)) hq
        · intro h
          rw [List.prefix_nil] at h
          exact absurd h (by simp)

end Splitting

/-! ## Runs: `pySplit` decomposes a text into its whitespace-free runs, and a
whitespace-free pattern occurs in the text iff it occurs in one run -/

theorem pySplit_cons_ws {c : Char} {t : List Char} (hc : isWs c = true) :
    pySplit (c :: t) = pySplit t := by
  cases t <;> simp [pySplit, hc]

theorem pySplit_cons_nonWs : ∀ {t : List Char} {d : Char}, isWs d = false →
    pySplit (d :: t) =
      ((d :: t).takeWhile (fun a => !isWs a)) ::
        pySplit ((d :: t).dropWhile (fun a => !isWs a)) := by
  intro t
  induction t with
  | nil =>
    intro d hd
    simp [pySplit, hd, List.takeWhile_cons, List.dropWhile_cons]
  | cons e t ih =>
    intro d hd
    by_cases he : isWs e
    · simp [pySplit, hd, he, List.takeWhile_cons, List.dropWhile_cons]
    · have he' : isWs e = false := by simpa using he
      simp [pySplit, hd, he', ih he', List.takeWhile_cons, List.dropWhile_cons]

theorem infix_runs_aux (p : List Char) (hp : ∀ a ∈ p, isWs a = false) (hne : p ≠ []) :
    ∀ n, ∀ t : List Char, t.length ≤ n →
      (p <:+: t ↔ ∃ r ∈ pySplit t, p <:+: r) := by
  intro n
  induction n with
  | zero =>
    intro t ht
    have : t = [] := List.length_eq_zero.mp (Nat.le_zero.mp ht)
    subst this
    simp [pySplit, hne]
  | succ n ih =>
    intro t ht
    cases t with
    | nil => simp [pySplit, hne]
    | cons c t' =>
      by_cases hc : isWs c
      · have hcp : c ∉ p := fun hm => by rw [hp c hm] at hc; exact absurd hc (by simp)
        rw [infix_cons_of_not_mem hcp, pySplit_cons_ws hc]
        exact ih t' (by simpa using Nat.le_of_succ_le_succ ht)
      · have hc' : isWs c = false := by simpa using hc
        obtain ⟨run, rest, hsplit, hdecomp, hrunlen, hrestws⟩ :
            ∃ run rest, pySplit (c :: t') = run :: pySplit rest ∧
              run ++ rest = c :: t' ∧ 0 < run.length ∧
              (rest = [] ∨ ∃ e rest', rest = e :: rest' ∧ isWs e = true) := by
          refine ⟨(c :: t').takeWhile (fun a => !isWs a),
            (c :: t').dropWhile (fun a => !isWs a),
            pySplit_cons_nonWs hc', List.takeWhile_append_dropWhile _ _, ?_, ?_⟩
          · rw [List.takeWhile_cons_of_pos (by simp [hc'])]
            simp
          · cases hrr : (c :: t').dropWhile (fun a => !isWs a) with
            | nil => exact Or.inl rfl
            | cons e rest' =>
              refine Or.inr ⟨e, rest', rfl, ?_⟩
              have hw := List.head_dropWhile_not (fun a => !isWs a) (c :: t')
                (by simp [hrr])
              simp only [hrr, List.head_cons] at hw
              simpa using hw
        have hlen := congrArg List.length hdecomp
        simp only [List.length_append, List.length_cons] at hlen
        have ht' : t'.length + 1 ≤ n + 1 := by simpa using ht
        rw [hsplit, ← hdecomp]
        rcases hrestws with rfl | ⟨e, rest', rfl, he⟩
        · simp [pySplit]
        · have hep : e ∉ p := fun hm => by rw [hp e hm] at he; exact absurd he (by simp)
          have hr'len : rest'.length ≤ n := by
            simp only [List.length_cons] at hlen
            omega
          rw [infix_append_cons_iff hep, pySplit_cons_ws he, ih rest' hr'len]
          simp

theorem infix_runs {p t : List Char} (hp : ∀ a ∈ p, isWs a = false) (hne : p ≠ []) :
    p <:+: t ↔ ∃ r ∈ pySplit t, p <:+: r :=
  infix_runs_aux p hp hne t.length t (Nat.le_refl _)

theorem infix_joinSp {p : List Char} (hp : ∀ a ∈ p, isWs a = false) (hne : p ≠ []) :
    ∀ rs : List (List Char), (p <:+: joinSp rs ↔ ∃ r ∈ rs, p <:+: r) := by
  intro rs
  induction rs with
  | nil => simp [joinSp, hne]
  | cons r rs ih =>
    cases rs with
    | nil => simp [joinSp]
    | cons s rs' =>
      have hsp : (' ' : Char) ∉ p := fun hm => by
        have := hp ' ' hm
        simp [isWs] at this
      rw [show joinSp (r :: s :: rs') = r ++ ' ' :: joinSp (s :: rs') from rfl,
        infix_append_cons_iff hsp, ih]
      simp

/-- A whitespace-free, nonempty pattern occurs in `clean_headline t` iff it
occurs in `t`: whitespace normalization neither creates nor destroys
matches of such patterns. -/
theorem infix_clean {p t : List Char} (hp : ∀ a ∈ p, isWs a = false) (hne : p ≠ []) :
    p <:+: clean_headline t ↔ p <:+: t := by
  rw [show clean_headline t = joinSp (pySplit t) from rfl, infix_joinSp hp hne]
  exact (infix_runs hp hne).symm

/-! ## Case folding commutes with whitespace structure -/

theorem lowerChar_eq_self {c : Char} (h : c ∉ upperLetters) : lowerChar c = c := by
  simp only [upperLetters, List.mem_cons, List.not_mem_nil, or_false, not_or] at h
  unfold lowerChar
  simp_all

theorem upperChar_eq_self {c : Char} (h : c ∉ lowerLetters) : upperChar c = c := by
  simp only [lowerLetters, List.mem_cons, List.not_mem_nil, or_false, not_or] at h
  unfold upperChar
  simp_all

theorem lowerChar_ws (c : Char) : isWs (lowerChar c) = isWs c := by
  by_cases h : c ∈ upperLetters
  · fin_cases h <;> decide
  · rw [lowerChar_eq_self h]

theorem lowerChar_upperChar (c : Char) : lowerChar (upperChar c) = lowerChar c := by
  by_cases h : c ∈ lowerLetters
  · fin_cases h <;> decide
  · rw [upperChar_eq_self h]

theorem pySplit_lower : ∀ t : List Char, pySplit (lowerStr t) = (pySplit t).map lowerStr := by
  intro t
  induction t with
  | nil => rfl
  | cons c t ih =>
    cases t with
    | nil =>
      by_cases hc : isWs c
      · have hc' : isWs c = true := by simpa using hc
        simp [pySplit, lowerStr, lowerChar_ws, hc']
      · have hc' : isWs c = false := by simpa using hc
        simp [pySplit, lowerStr, lowerChar_ws, hc']
    | cons d t' =>
      by_cases hc : isWs c
      · have hc' : isWs c = true := by simpa using hc
        rw [show lowerStr (c :: d :: t') = lowerChar c :: lowerStr (d :: t') from rfl,
          pySplit_cons_ws (by rw [lowerChar_ws]; exact hc'),
          pySplit_cons_ws hc', ih]
      · have hc' : isWs c = false := by simpa using hc
        by_cases hd : isWs d
        · have hd' : isWs d = true := by simpa using hd
          rw [show pySplit (c :: d :: t') = [c] :: pySplit (d :: t') by
              simp [pySplit, hc', hd'],
            show lowerStr (c :: d :: t') = lowerChar c :: lowerStr (d :: t') from rfl,
            show pySplit (lowerChar c :: lowerStr (d :: t'))
                = [lowerChar c] :: pySplit (lowerStr (d :: t')) by
              rcases hld : lowerStr (d :: t') with _ | ⟨x, xs⟩
              · simp [lowerStr] at hld
              · have hx : x = lowerChar d := by
                  simp only [lowerStr, List.map_cons] at hld
                  exact (List.cons.injEq _ _ _ _ ▸ hld).1.symm
                subst hx
                simp [pySplit, lowerChar_ws, hc', hd'],
            ih]
          simp [lowerStr]
        · have hd' : isWs d = false := by simpa using hd
          simp only [lowerStr, List.map_cons] at ih ⊢
          rcases hps : pySplit (d :: t') with _ | ⟨r, rs⟩ <;> rw [hps] at ih <;>
            simp [pySplit, lowerChar_ws, hc', hd', hps, ih, lowerStr]

theorem joinSp_lower : ∀ rs : List (List Char),
    lowerStr (joinSp rs) = joinSp (rs.map lowerStr) := by
  intro rs
  induction rs with
  | nil => rfl
  | cons r rs ih =>
    cases rs with
    | nil => rfl
    | cons s rs' =>
      show lowerStr (r ++ ' ' :: joinSp (s :: rs'))
        = lowerStr r ++ ' ' :: joinSp ((s :: rs').map lowerStr)
      rw [show lowerStr (r ++ ' ' :: joinSp (s :: rs'))
          = lowerStr r ++ lowerChar ' ' :: lowerStr (joinSp (s :: rs')) by
        simp [lowerStr]]
      rw [ih]
      rfl

theorem clean_lower (t : List Char) :
    clean_headline (lowerStr t) = lowerStr (clean_headline t) := by
  rw [show clean_headline (lowerStr t) = joinSp (pySplit (lowerStr t)) from rfl,
    pySplit_lower, ← joinSp_lower]
  rfl

/-! ## Lexicon facts (finite checks) -/

theorem pos_terms_ok : ∀ w ∈ POSITIVE_TERMS, w ≠ [] ∧ ∀ a ∈ w, isWs a = false := by
  decide

theorem neg_terms_ok : ∀ w ∈ NEGATIVE_TERMS, w ≠ [] ∧ ∀ a ∈ w, isWs a = false := by
  decide

theorem pos_terms_lower : ∀ w ∈ POSITIVE_TERMS, lowerStr w = w := by decide

theorem neg_terms_lower : ∀ w ∈ NEGATIVE_TERMS, lowerStr w = w := by decide

theorem terms_no_cross :
    ∀ w ∈ POSITIVE_TERMS, ∀ q ∈ NEGATIVE_TERMS, ¬ q <:+: w ∧ ¬ w <:+: q := by
  decide

/-! ## The score as a difference of matched-token counts -/

theorem foldl_count_add (terms : List (List Char)) (u : List Char) (s : Int) :
    terms.foldl (fun s w => if w <:+: u then s + 1 else s) s
      = s + terms.countP (fun w => decide (w <:+: u)) := by
  induction terms generalizing s with
  | nil => simp
  | cons a l ihl =>
    by_cases h : a <:+: u
    · rw [List.foldl_cons, if_pos h, ihl,
        List.countP_cons_of_pos _ _ (by simp [h])]
      push_cast
      omega
    · rw [List.foldl_cons, if_neg h, ihl,
        List.countP_cons_of_neg _ _ (by simp [h])]

theorem foldl_count_sub (terms : List (List Char)) (u : List Char) (s : Int) :
    terms.foldl (fun s w => if w <:+: u then s - 1 else s) s
      = s - terms.countP (fun w => decide (w <:+: u)) := by
  induction terms generalizing s with
  | nil => simp
  | cons a l ihl =>
    by_cases h : a <:+: u
    · rw [List.foldl_cons, if_pos h, ihl,
        List.countP_cons_of_pos _ _ (by simp [h])]
      push_cast
      omega
    · rw [List.foldl_cons, if_neg h, ihl,
        List.countP_cons_of_neg _ _ (by simp [h])]

theorem score_eq (t : List Char) :
    score_sentiment t
      = (POSITIVE_TERMS.countP (fun w => decide (w <:+: lowerStr t)) : Int)
        - (NEGATIVE_TERMS.countP (fun w => decide (w <:+: lowerStr t)) : Int) := by
  unfold score_sentiment
  rw [foldl_count_sub, foldl_count_add]
  omega

theorem score_lower_congr {t u : List Char} (h : lowerStr t = lowerStr u) :
    score_sentiment t = score_sentiment u := by
  unfold score_sentiment
  rw [h]

theorem score_clean (t : List Char) :
    score_sentiment (clean_headline t) = score_sentiment t := by
  rw [score_eq, score_eq]
  have hpos : POSITIVE_TERMS.countP (fun w => decide (w <:+: lowerStr (clean_headline t)))
      = POSITIVE_TERMS.countP (fun w => decide (w <:+: lowerStr t)) := by
    refine List.countP_congr fun w hw => ?_
    obtain ⟨hne, hws⟩ := pos_terms_ok w hw
    simp only [decide_eq_true_eq]
    rw [← clean_lower]
    exact infix_clean hws hne
  have hneg : NEGATIVE_TERMS.countP (fun w => decide (w <:+: lowerStr (clean_headline t)))
      = NEGATIVE_TERMS.countP (fun w => decide (w <:+: lowerStr t)) := by
    refine List.countP_congr fun w hw => ?_
    obtain ⟨hne, hws⟩ := neg_terms_ok w hw
    simp only [decide_eq_true_eq]
    rw [← clean_lower]
    exact infix_clean hws hne
  rw [hpos, hneg]

/-! ## Pipeline and aggregation helper lemmas -/

theorem analyse_single_eq (t : List Char) :
    analyse_single_headline t = (sentiment_label (score_sentiment t), score_sentiment t) := by
  unfold analyse_single_headline
  rw [score_clean]

theorem label_total (s : Int) :
    sentiment_label s = "Positive" ∨ sentiment_label s = "Negative"
      ∨ sentiment_label s = "Neutral" := by
  unfold sentiment_label
  split_ifs <;> simp

theorem sumValues_incr (m : List (String × Nat)) (k : String) :
    sumValues (incr m k) = sumValues m + 1 := by
  induction m with
  | nil => simp [incr, sumValues]
  | cons kv rest ih =>
    obtain ⟨k', v⟩ := kv
    by_cases h : k' = k <;>
      simp only [incr, h, if_true, if_false, sumValues, List.map_cons, List.sum_cons] <;>
      simp only [sumValues] at ih <;> omega

theorem fold_pairs (f : List Char → String) (hs : List (List Char))
    (ctr : List (String × Nat)) (dts : List (String × List Char)) :
    hs.foldl (fun acc h => (incr acc.1 (f h), acc.2 ++ [(f h, h)])) (ctr, dts)
      = (hs.foldl (fun c h => incr c (f h)) ctr,
         dts ++ hs.map (fun h => (f h, h))) := by
  induction hs generalizing ctr dts with
  | nil => simp
  | cons h hs ih =>
    rw [List.foldl_cons, List.foldl_cons, ih]
    simp

theorem fold_incr_sum (f : List Char → String) (hs : List (List Char))
    (ctr : List (String × Nat)) :
    sumValues (hs.foldl (fun c h => incr c (f h)) ctr) = sumValues ctr + hs.length := by
  induction hs generalizing ctr with
  | nil => simp
  | cons h hs ih =>
    rw [List.foldl_cons, ih, sumValues_incr]
    simp
    omega

theorem fold_append_tuples (l : List SourceReport)
    (acc : List (String × Nat × Nat × Nat)) :
    l.foldl (fun a r => a ++ [reportTuple r]) acc = acc ++ l.map reportTuple := by
  induction l generalizing acc with
  | nil => simp
  | cons r l ih =>
    rw [List.foldl_cons, ih]
    simp

theorem plot_fold (l : List SourceReport)
    (acc : List String × List Nat × List Nat × List Nat) :
    l.foldl
      (fun acc r =>
        (acc.1 ++ [r.source],
         acc.2.1 ++ [getOr0 r.distribution "Positive"],
         acc.2.2.1 ++ [getOr0 r.distribution "Neutral"],
         acc.2.2.2 ++ [getOr0 r.distribution "Negative"])) acc
      = (acc.1 ++ l.map (fun r => r.source),
         acc.2.1 ++ l.map (fun r => getOr0 r.distribution "Positive"),
         acc.2.2.1 ++ l.map (fun r => getOr0 r.distribution "Neutral"),
         acc.2.2.2 ++ l.map (fun r => getOr0 r.distribution "Negative")) := by
  induction l generalizing acc with
  | nil => simp
  | cons r l ih =>
    rw [List.foldl_cons, ih]
    simp

/-! ## Claim theorems -/

/-- C1: for every source name and list of headlines, the report of
`analyse_source` has `total` equal to the number of headlines, the counts in
`distribution` sum to `total`, and `details` is exactly the input-ordered
list of `(label, headline)` pairs, one per headline. -/
theorem analyse_source_invariants (name : String) (headlines : List (List Char)) :
    (analyse_source name headlines).total = headlines.length
    ∧ sumValues (analyse_source name headlines).distribution = headlines.length
    ∧ (analyse_source name headlines).details
        = headlines.map (fun h => ((analyse_single_headline h).1, h)) := by
  refine ⟨rfl, ?_, ?_⟩
  · show sumValues (headlines.foldl _ ([], [])).1 = headlines.length
    rw [fold_pairs (fun h => (analyse_single_headline h).1)]
    rw [fold_incr_sum]
    simp [sumValues]
  · show (headlines.foldl _ ([], [])).2 = _
    rw [fold_pairs (fun h => (analyse_single_headline h).1)]
    simp

/-- C2: `sentiment_label` maps every integer score to exactly one of the
three labels, partitioning the integers by sign: positive scores to
`Positive`, negative scores to `Negative`, zero to `Neutral`. -/
theorem sentiment_label_partition (s : Int) :
    (sentiment_label s = "Positive" ↔ 0 < s)
    ∧ (sentiment_label s = "Negative" ↔ s < 0)
    ∧ (sentiment_label s = "Neutral" ↔ s = 0)
    ∧ (sentiment_label s = "Positive" ∨ sentiment_label s = "Negative"
        ∨ sentiment_label s = "Neutral") := by
  rcases lt_trichotomy s 0 with h | h | h
  · have hl : sentiment_label s = "Negative" := by
      unfold sentiment_label
      rw [if_neg (by omega), if_pos h]
    rw [hl]
    exact ⟨iff_of_false (by decide) (by omega), iff_of_true rfl h,
      iff_of_false (by decide) (by omega), Or.inr (Or.inl rfl)⟩
  · subst h
    rw [show sentiment_label 0 = "Neutral" by decide]
    exact ⟨iff_of_false (by decide) (by decide), iff_of_false (by decide) (by decide),
      iff_of_true rfl rfl, Or.inr (Or.inr rfl)⟩
  · have hl : sentiment_label s = "Positive" := by
      unfold sentiment_label
      rw [if_pos h]
    rw [hl]
    exact ⟨iff_of_true rfl h, iff_of_false (by decide) (by omega),
      iff_of_false (by decide) (by omega), Or.inl rfl⟩

/-- C3: the score is the number of distinct positive-lexicon tokens occurring
as substrings of the lower-cased text minus the number of distinct
negative-lexicon tokens so occurring (both lexicons are duplicate-free, and
each token contributes at most one point), so it lies in `[-18, 18]`. -/
theorem score_sentiment_count (t : List Char) :
    score_sentiment t
      = ((POSITIVE_TERMS.filter (fun w => decide (w <:+: lowerStr t))).length : Int)
        - ((NEGATIVE_TERMS.filter (fun w => decide (w <:+: lowerStr t))).length : Int)
    ∧ POSITIVE_TERMS.Nodup ∧ NEGATIVE_TERMS.Nodup
    ∧ POSITIVE_TERMS.length = 18 ∧ NEGATIVE_TERMS.length = 18
    ∧ -18 ≤ score_sentiment t ∧ score_sentiment t ≤ 18 := by
  have h := score_eq t
  have hpb : POSITIVE_TERMS.countP (fun w => decide (w <:+: lowerStr t)) ≤ 18 :=
    le_trans (List.countP_le_length _) (by decide)
  have hnb : NEGATIVE_TERMS.countP (fun w => decide (w <:+: lowerStr t)) ≤ 18 :=
    le_trans (List.countP_le_length _) (by decide)
  refine ⟨?_, by decide, by decide, by decide, by decide, ?_, ?_⟩
  · rw [h, ← List.countP_eq_length_filter, ← List.countP_eq_length_filter]
  · rw [h]
    omega
  · rw [h]
    omega

/-- C4: the score the pipeline `analyse_single_headline` produces equals the
score of case-folding and scoring the original input text directly (and the
label is derived from that score): the whitespace normalization done by
`clean_headline` does not alter the score. -/
theorem pipeline_scores_original (t : List Char) :
    analyse_single_headline t = (sentiment_label (score_sentiment t), score_sentiment t) :=
  analyse_single_eq t

/-- C5: classification is case-insensitive: texts with the same lower-casing
classify identically; in particular upper-casing a text changes nothing and
`classify "GROWTH" = classify "growth"`. -/
theorem classify_case_insensitive :
    (∀ t u : List Char, lowerStr t = lowerStr u →
        analyse_single_headline t = analyse_single_headline u)
    ∧ (∀ t : List Char, analyse_single_headline (t.map upperChar) = analyse_single_headline t)
    ∧ analyse_single_headline "GROWTH".data = analyse_single_headline "growth".data := by
  have key : ∀ t u : List Char, lowerStr t = lowerStr u →
      analyse_single_headline t = analyse_single_headline u := by
    intro t u h
    rw [analyse_single_eq, analyse_single_eq, score_lower_congr h]
  refine ⟨key, fun t => key _ _ ?_, key _ _ ?_⟩
  · simp [lowerStr, List.map_map, Function.comp, lowerChar_upperChar]
  · decide

/-- Witness for C5: the case-insensitivity theorem applied at the concrete
pair `"GROWTH"` / `"growth"`. -/
theorem classify_case_insensitive_witness :
    lowerStr "GROWTH".data = lowerStr "growth".data
    ∧ analyse_single_headline "GROWTH".data = analyse_single_headline "growth".data :=
  ⟨by decide, classify_case_insensitive.1 "GROWTH".data "growth".data (by decide)⟩

/-- C6: appending a whitespace-separated positive-lexicon token the text does
not already match never decreases the score, and appending a
negative-lexicon token never increases it. -/
theorem score_monotone_append (t w : List Char) :
    (w ∈ POSITIVE_TERMS → ¬ w <:+: lowerStr t →
        score_sentiment t ≤ score_sentiment (t ++ ' ' :: w))
    ∧ (w ∈ NEGATIVE_TERMS → ¬ w <:+: lowerStr t →
        score_sentiment (t ++ ' ' :: w) ≤ score_sentiment t) := by
  have hl : lowerStr (t ++ ' ' :: w) = lowerStr t ++ ' ' :: lowerStr w := by
    simp [lowerStr, show lowerChar ' ' = ' ' from rfl]
  constructor
  · intro hw _hnm
    rw [score_eq, score_eq, hl, pos_terms_lower w hw]
    have hpos : POSITIVE_TERMS.countP (fun x => decide (x <:+: lowerStr t))
        ≤ POSITIVE_TERMS.countP (fun x => decide (x <:+: lowerStr t ++ ' ' :: w)) :=
      List.countP_mono_left fun x _hx hdec => by
        simp only [decide_eq_true_eq] at hdec ⊢
        exact hdec.trans (List.prefix_append _ _).isInfix
    have hneg : NEGATIVE_TERMS.countP (fun x => decide (x <:+: lowerStr t ++ ' ' :: w))
        = NEGATIVE_TERMS.countP (fun x => decide (x <:+: lowerStr t)) :=
      List.countP_congr fun q hq => by
        simp only [decide_eq_true_eq]
        rw [infix_append_cons_iff (fun hm => by
          have := (neg_terms_ok q hq).2 ' ' hm
          simp [isWs] at this)]
        have hqw : ¬ q <:+: w := (terms_no_cross w hw q hq).1
        tauto
    omega
  · intro hw _hnm
    rw [score_eq, score_eq, hl, neg_terms_lower w hw]
    have hneg : NEGATIVE_TERMS.countP (fun x => decide (x <:+: lowerStr t))
        ≤ NEGATIVE_TERMS.countP (fun x => decide (x <:+: lowerStr t ++ ' ' :: w)) :=
      List.countP_mono_left fun x _hx hdec => by
        simp only [decide_eq_true_eq] at hdec ⊢
        exact hdec.trans (List.prefix_append _ _).isInfix
    have hpos : POSITIVE_TERMS.countP (fun x => decide (x <:+: lowerStr t ++ ' ' :: w))
        = POSITIVE_TERMS.countP (fun x => decide (x <:+: lowerStr t)) :=
      List.countP_congr fun p hp => by
        simp only [decide_eq_true_eq]
        rw [infix_append_cons_iff (fun hm => by
          have := (pos_terms_ok p hp).2 ' ' hm
          simp [isWs] at this)]
        have hpw : ¬ p <:+: w := (terms_no_cross p hp w hw).2
        tauto
    omega

/-- Witness for C6: appending `"growth"` to `"calm day"` (which does not
already match it) does not decrease the score. -/
theorem score_monotone_append_witness :
    "growth".data ∈ POSITIVE_TERMS
    ∧ ¬ "growth".data <:+: lowerStr "calm day".data
    ∧ score_sentiment "calm day".data
        ≤ score_sentiment ("calm day".data ++ ' ' :: "growth".data) :=
  ⟨by decide, by decide,
    (score_monotone_append "calm day".data "growth".data).1 (by decide) (by decide)⟩

/-- C7: the classifier is a total function on all strings; the empty string
yields score 0 and label `Neutral`, and on every input the label is derived
from the score and is one of the three labels. -/
theorem classifier_total (t : List Char) :
    analyse_single_headline [] = ("Neutral", 0)
    ∧ (analyse_single_headline t).1 = sentiment_label ((analyse_single_headline t).2)
    ∧ ((analyse_single_headline t).1 = "Positive"
        ∨ (analyse_single_headline t).1 = "Negative"
        ∨ (analyse_single_headline t).1 = "Neutral") := by
  refine ⟨by decide, ?_, ?_⟩
  · rw [analyse_single_eq]
  · rw [analyse_single_eq]
    exact label_total _

/-- C8: the summary and chart read each report's counts with the
get-or-zero accessor for the three fixed labels and emit per-source tuples
in exactly the order the reports appear, never re-sorted; for reports
`[A, B]` the tuples appear in order `[A, B]`. -/
theorem summary_order (results : List SourceReport) :
    summary_tuples results = results.map reportTuple
    ∧ plot_data results
        = (results.map (fun r => r.source),
           results.map (fun r => getOr0 r.distribution "Positive"),
           results.map (fun r => getOr0 r.distribution "Neutral"),
           results.map (fun r => getOr0 r.distribution "Negative"))
    ∧ ∀ A B : SourceReport, summary_tuples [A, B] = [reportTuple A, reportTuple B] := by
  refine ⟨?_, ?_, fun A B => ?_⟩
  · rw [show summary_tuples results
        = results.foldl (fun a r => a ++ [reportTuple r]) [] from rfl,
      fold_append_tuples]
    simp
  · rw [show plot_data results = results.foldl _ ([], [], [], []) from rfl, plot_fold]
    simp
  · rw [show summary_tuples [A, B]
        = [A, B].foldl (fun a r => a ++ [reportTuple r]) [] from rfl,
      fold_append_tuples]
    simp

/-- C9: when the report list is empty (every source failed upstream), the run
signals "no data" and skips summary and chart; the chart routine itself also
returns without rendering on an empty list, and a run signals "no data"
exactly when both fetches failed. -/
theorem no_data_skips (bbc guardian : Option (List (List Char))) :
    main_model none none = RunResult.noData
    ∧ plot_sentiment_chart [] = none
    ∧ (main_model bbc guardian = RunResult.noData ↔ bbc = none ∧ guardian = none) := by
  refine ⟨rfl, rfl, ?_⟩
  cases bbc <;> cases guardian <;> simp [main_model]

/-- C10: whitespace normalization never changes the sentiment score — the
pipeline's scoring of the cleaned text equals scoring the original text —
and indeed no lexicon token contains whitespace. -/
theorem clean_preserves_score (t : List Char) :
    score_sentiment (clean_headline t) = score_sentiment t
    ∧ ∀ w ∈ POSITIVE_TERMS ++ NEGATIVE_TERMS, ∀ a ∈ w, isWs a = false :=
  ⟨score_clean t, by decide⟩

/-- Witness for C10: cleaning a concrete ragged headline preserves its
score, and the lexicon token `"war"` (instantiating the membership
hypotheses at the letter `w`) is whitespace-free. -/
theorem clean_preserves_score_witness :
    score_sentiment (clean_headline " War  rise ".data) = score_sentiment " War  rise ".data
    ∧ isWs 'w' = false :=
  ⟨(clean_preserves_score " War  rise ".data).1,
   (clean_preserves_score " War  rise ".data).2 "war".data (by decide) 'w' (by decide)⟩

end NewsSentiment
